import Mathlib

/-!
Verification of the Chainpoint Services calendar service, audit producer
service and node registry API against their specification.

The definitions below are a shallow embedding of the JavaScript sources:
pure computations become Lean functions, JavaScript numbers become `Nat`
or `Int`, byte buffers become `List Nat`, and the outcomes of external
calls (database writes, AMQP publishes, HTTP requests, token transfers)
are passed in as explicit parameters.  The SHA-256 function itself is a
parameter `H : Bytes → Bytes`: the sources only apply
`crypto.createHash('sha256')` to byte buffers, so every theorem is proved
for an arbitrary hash function.
-/

namespace Chainpoint

/-- Byte strings are lists of natural numbers, modelling node `Buffer` values. -/
abbrev Bytes := List Nat

/-- Lowercase hex digit character for a value below 16, as produced by
`Buffer.prototype.toString('hex')`: `'0'..'9'` then `'a'..'f'`. -/
def hexDigitChar (n : Nat) : Char :=
  if n < 10 then Char.ofNat (48 + n) else Char.ofNat (87 + min n 15)

/-- The two hex characters of one byte. -/
def hexEncodeByte (b : Nat) : List Char :=
  [hexDigitChar (b / 16 % 16), hexDigitChar (b % 16)]

/-- `Buffer.prototype.toString('hex')`: lowercase hex encoding of a byte buffer. -/
def hexEncode (bs : Bytes) : String :=
  String.mk ((bs.map hexEncodeByte).flatten)

/-- Numeric value of a hex digit character (either case), `none` otherwise. -/
def hexCharVal (c : Char) : Option Nat :=
  let n := c.toNat
  if 48 ≤ n ∧ n ≤ 57 then some (n - 48)
  else if 97 ≤ n ∧ n ≤ 102 then some (n - 87)
  else if 65 ≤ n ∧ n ≤ 70 then some (n - 55)
  else none

/-- `Buffer.from(s, 'hex')`: decode hex digit pairs, stopping at the first
character pair that is not valid hex. -/
def hexDecodeChars : List Char → Bytes
  | c1 :: c2 :: rest =>
    match hexCharVal c1, hexCharVal c2 with
    | some hi, some lo => (16 * hi + lo) :: hexDecodeChars rest
    | _, _ => []
  | _ => []

/-- `Buffer.from(s, 'hex')` on a Lean string. -/
def hexDecode (s : String) : Bytes :=
  hexDecodeChars s.data

/-- Modelled from the spec: the `utils.isHex` helper (`lib/utils.js`, not
included in the sources) that selects between the `hex-if-hex-else-utf8`
decodings of `dataVal`; a string is hex when it is nonempty, of even
length, and made of hex digits only. -/
def isHex (s : String) : Bool :=
  !s.data.isEmpty && s.data.length % 2 == 0 && s.data.all (fun c => (hexCharVal c).isSome)

/-- UTF-8 encoding of one character. -/
def charUtf8 (c : Char) : Bytes :=
  let n := c.toNat
  if n < 128 then [n]
  else if n < 2048 then [192 + n / 64, 128 + n % 64]
  else if n < 65536 then [224 + n / 4096, 128 + n / 64 % 64, 128 + n % 64]
  else [240 + n / 262144, 128 + n / 4096 % 64, 128 + n / 64 % 64, 128 + n % 64]

/-- `Buffer.from(s, 'utf8')`: UTF-8 encoding of a string. -/
def utf8Bytes (s : String) : Bytes :=
  (s.data.map charUtf8).flatten

/-- `String.prototype.toLowerCase()` (character-wise). -/
def jsToLower (s : String) : String :=
  String.mk (s.data.map Char.toLower)

/-- A calendar block row (`CalendarBlock` model).  `hash` and `sig` are
filled in by `writeBlockAsync`. -/
structure CalBlock where
  id : Nat
  time : Nat
  version : Nat
  stackId : String
  type : String
  dataId : String
  dataVal : String
  prevHash : String
  hash : String
  sig : String
deriving DecidableEq, Repr, Inhabited

/-- The `"id:time:version:stackId:type:dataId"` string built (identically) in
`calcBlockHashHex` and in `queueCalStateDataAsync`. -/
def blockDataString (b : CalBlock) : String :=
  toString b.id ++ ":" ++ toString b.time ++ ":" ++ toString b.version ++ ":" ++
    b.stackId ++ ":" ++ b.type ++ ":" ++ b.dataId

/-- The `dataVal` buffer of `calcBlockHashHex`: hex-decoded when the string is
hex, UTF-8 otherwise. -/
def dataValBytes (dataVal : String) : Bytes :=
  if isHex dataVal then hexDecode dataVal else utf8Bytes dataVal

/-- `calcBlockHashHex`: SHA-256 over prefix string bytes, dataVal bytes and
hex-decoded prevHash, returned as a hex string. -/
def calcBlockHashHex (H : Bytes → Bytes) (block : CalBlock) : String :=
  hexEncode (H (utf8Bytes (blockDataString block) ++ dataValBytes block.dataVal ++
    hexDecode block.prevHash))

/-- `writeBlockAsync`: build the block record, compute its hash, and attach the
`fingerprint12:base64Signature` signature string.  `sigOf` stands for
`calcBlockHashSigB64` and `signingPubKeyHashHex` for the SHA-256 hex digest of
the signing public key. -/
def writeBlockAsync (H : Bytes → Bytes) (sigOf : String → String)
    (signingPubKeyHashHex : String) (height time : Nat)
    (stackId ty dataId dataVal prevHash : String) : CalBlock :=
  let b : CalBlock :=
    { id := height, time := time, version := 1, stackId := stackId, type := ty,
      dataId := dataId, dataVal := dataVal, prevHash := prevHash, hash := "", sig := "" }
  let blockHashHex := calcBlockHashHex H b
  { b with
    hash := blockHashHex,
    sig := signingPubKeyHashHex.take 12 ++ ":" ++ sigOf blockHashHex }

/-!
### Merkle Builder

Modelled from the spec (§4.3 Merkle Builder): the services build Merkle trees
through the external `merkle-tools` package, which is not part of the sources.
Leaves are byte buffers taken as-is (no re-hashing); one level pairs
consecutive nodes left-to-right and hashes each concatenation, promoting an
unpaired last node unchanged; sibling values in inclusion proofs are reported
as hex strings, with right siblings as `{right}` and left siblings as
`{left}`.
-/

/-- One level of the Merkle tree: hash consecutive pairs, promote an unpaired
last node unchanged. -/
def buildLevel (H : Bytes → Bytes) : List Bytes → List Bytes
  | a :: b :: rest => H (a ++ b) :: buildLevel H rest
  | l => l

/-- A level never grows. -/
def buildLevel_length_le (H : Bytes → Bytes) :
    ∀ l : List Bytes, (buildLevel H l).length ≤ l.length
  | [] => Nat.le_refl _
  | [_] => Nat.le_refl _
  | _ :: _ :: rest => by
    have h := buildLevel_length_le H rest
    simp only [buildLevel, List.length_cons]
    omega

/-- Merkle root computation with explicit fuel; `l.length` fuel is always
enough since every level at least halves. -/
def merkleRootAux (H : Bytes → Bytes) : Nat → List Bytes → Bytes
  | _, [] => []
  | _, [a] => a
  | 0, a :: _ :: _ => a
  | fuel + 1, a :: b :: rest => merkleRootAux H fuel (buildLevel H (a :: b :: rest))

/-- Merkle root of a leaf sequence (`makeTree` + `getMerkleRoot`). -/
def merkleRoot (H : Bytes → Bytes) (leaves : List Bytes) : Bytes :=
  merkleRootAux H leaves.length leaves

/-- One sibling step of a Merkle inclusion proof, byte-buffer valued. -/
inductive PItem where
  | left (v : Bytes)
  | right (v : Bytes)
deriving DecidableEq, Repr

/-- The sibling buffer carried by a proof step. -/
def PItem.val : PItem → Bytes
  | .left v => v
  | .right v => v

/-- Inclusion proof computation with explicit fuel. -/
def getProofFuel (H : Bytes → Bytes) : Nat → List Bytes → Nat → List PItem
  | _, [], _ => []
  | _, [_], _ => []
  | 0, _ :: _ :: _, _ => []
  | fuel + 1, a :: b :: rest, idx =>
    let l := a :: b :: rest
    let entry : List PItem :=
      if idx = l.length - 1 ∧ l.length % 2 = 1 then []
      else if idx % 2 = 1 then [.left (l.getD (idx - 1) [])]
      else [.right (l.getD (idx + 1) [])]
    entry ++ getProofFuel H fuel (buildLevel H l) (idx / 2)

/-- `getProof(index)`: walk the levels bottom-up; skip the level when the node
is the promoted unpaired last node, otherwise record the left/right sibling;
halve the index at each level. -/
def getProof (H : Bytes → Bytes) (l : List Bytes) (idx : Nat) : List PItem :=
  getProofFuel H l.length l idx

/-- One sibling step of a Merkle inclusion proof as emitted by
`merkle-tools`' `getProof`: sibling values as hex strings. -/
inductive ProofStep where
  | left (v : String)
  | right (v : String)
deriving DecidableEq, Repr

/-- Hex-encode the sibling values of a byte-level proof. -/
def toHexSteps (p : List PItem) : List ProofStep :=
  p.map fun it =>
    match it with
    | .left v => .left (hexEncode v)
    | .right v => .right (hexEncode v)

/-- A Chainpoint v3 operation: left/right concatenation or a hash step. -/
inductive COp where
  | l (v : String)
  | r (v : String)
  | op (hashType : String)
deriving DecidableEq, Repr

/-- `formatAsChainpointV3Ops`: map `{left}`/`{right}` to `{l}`/`{r}` and
interleave a `{op}` entry after every step. -/
def formatAsChainpointV3Ops : List ProofStep → String → List COp
  | [], _ => []
  | .left v :: rest, op => .l v :: .op op :: formatAsChainpointV3Ops rest op
  | .right v :: rest, op => .r v :: .op op :: formatAsChainpointV3Ops rest op

/-- Modelled from the spec (§3 Proof Segment): an operation value is decoded as
hex when it is a hex string and as UTF-8 otherwise. -/
def opValueBytes (v : String) : Bytes :=
  if isHex v then hexDecode v else utf8Bytes v

/-- Modelled from the spec (§3 Proof Segment): replay a proof segment
left-to-right; `{l}` prepends, `{r}` appends, `{op}` applies the hash selected
by the operation's hash type. -/
def replayOps (hashFor : String → Bytes → Bytes) : List COp → Bytes → Bytes
  | [], acc => acc
  | .l v :: rest, acc => replayOps hashFor rest (opValueBytes v ++ acc)
  | .r v :: rest, acc => replayOps hashFor rest (acc ++ opValueBytes v)
  | .op t :: rest, acc => replayOps hashFor rest (hashFor t acc)

/-- Byte-level replay of a proof: each step concatenates the sibling on its
side and hashes. -/
def replayB (H : Bytes → Bytes) : List PItem → Bytes → Bytes
  | [], acc => acc
  | .left v :: rest, acc => replayB H rest (H (v ++ acc))
  | .right v :: rest, acc => replayB H rest (H (acc ++ v))

/-!
### Calendar Writer (`server.js` of the calendar service)
-/

/-- An aggregation-root message consumed from the `aggregator` queue:
`{agg_id, agg_root}` plus the AMQP message handle (modelled by `msgId`),
attached by `consumeAggRootMessage`. -/
structure AggRootMsg where
  agg_id : String
  agg_root : String
  msgId : Nat
deriving DecidableEq, Repr, Inhabited

/-- One entry of `treeDataObj.proofData` built by `generateCalendarTree`. -/
structure CalProofItem where
  agg_id : String
  agg_msgId : Nat
  proof : List COp
deriving DecidableEq, Repr, Inhabited

/-- `treeDataObj` built by `generateCalendarTree`. -/
structure CalTreeData where
  cal_root : Bytes
  proofData : List CalProofItem
deriving DecidableEq, Repr, Inhabited

/-- `generateCalendarTree`: `null` when there is no root to process, otherwise
a Merkle tree over the hex-decoded `agg_root` values in insertion order, with
one formatted `sha-256` inclusion proof per root. -/
def generateCalendarTree (H : Bytes → Bytes) (rootsForTree : List AggRootMsg) :
    Option CalTreeData :=
  if rootsForTree.isEmpty then none
  else
    let leaves := rootsForTree.map fun rootObj => hexDecode rootObj.agg_root
    some
      { cal_root := merkleRoot H leaves,
        proofData := (List.range rootsForTree.length).map fun x =>
          { agg_id := (rootsForTree.getD x default).agg_id,
            agg_msgId := (rootsForTree.getD x default).msgId,
            proof := formatAsChainpointV3Ops (toHexSteps (getProof H leaves x))
              "sha-256" } }

/-- `createCalendarBlockAsync`: append a `cal` block after the current top
block, with `dataId = newId` and `dataVal = root`. -/
def createCalendarBlock (H : Bytes → Bytes) (sigOf : String → String)
    (signingPubKeyHashHex : String) (prevBlock : CalBlock) (now : Nat)
    (stackId root : String) : CalBlock :=
  writeBlockAsync H sigOf signingPubKeyHashHex (prevBlock.id + 1) now stackId "cal"
    (toString (prevBlock.id + 1)) root prevBlock.hash

/-- One proof-state message published by `queueCalStateDataAsync` to the state
queue with type `cal`. -/
structure CalStateMsg where
  agg_id : String
  cal_id : Nat
  ops : List COp
  anchor_id : Nat
  uris : List String
deriving DecidableEq, Repr, Inhabited

/-- `queueCalStateDataAsync`: for every proof-data item, publish the item's
Merkle ops extended with `{l: "id:time:version:stackId:type:dataId"}`,
`{r: prevHash}`, `{op: "sha-256"}` from the appended block, plus the
`/calendar/<id>/hash` anchor URI. -/
def queueCalStateData (treeDataObj : CalTreeData) (block : CalBlock)
    (baseUri : String) : List CalStateMsg :=
  treeDataObj.proofData.map fun proofDataItem =>
    { agg_id := proofDataItem.agg_id,
      cal_id := block.id,
      ops := proofDataItem.proof ++
        [COp.l (blockDataString block), COp.r block.prevHash, COp.op "sha-256"],
      anchor_id := block.id,
      uris := [baseUri ++ "/calendar/" ++ toString block.id ++ "/hash"] }

/-- One call to `persistCalendarTreeAsync`: with a null AMQP channel it throws
before doing anything; otherwise it attempts the block write and, if the write
throws, nacks every aggregator message before rethrowing.  Returns the nacked
message ids and whether the write succeeded. -/
def persistCalendarAttempt (channelOpen : Bool) (commitOk : Bool)
    (msgIds : List Nat) : List Nat × Bool :=
  if !channelOpen then ([], false)
  else if commitOk then ([], true)
  else (msgIds, false)

/-- The `async-retry` wrapper around `persistCalendarTreeAsync` (16 attempts):
stop at the first success, accumulating the nacks of failed attempts. -/
def retryPersistCalendar (channelOpen : Bool) (commitOkAt : Nat → Bool)
    (msgIds : List Nat) : Nat → Nat → List Nat × Bool
  | 0, _ => ([], false)
  | fuel + 1, attempt =>
    let r := persistCalendarAttempt channelOpen (commitOkAt attempt) msgIds
    if r.2 then r
    else
      let rest := retryPersistCalendar channelOpen commitOkAt msgIds fuel (attempt + 1)
      (r.1 ++ rest.1, rest.2)

/-- Outcome of one `calendarLock` tick. -/
structure CalTickResult where
  buffer : List AggRootMsg
  nackedMsgIds : List Nat
  blockWritten : Bool
deriving DecidableEq, Repr, Inhabited

/-- The `calendarLock` handler: splice (snapshot and clear) the root buffer; on
an empty snapshot do nothing; otherwise retry the persist step up to 16 times
and, if every attempt failed, concatenate the snapshot back ahead of the roots
that arrived during the tick (`AGGREGATION_ROOTS = rootsForTree.concat(...)`).
`arrivalsDuringTick` are the roots pushed onto `AGGREGATION_ROOTS` while the
handler was suspended. -/
def calendarLockHandler (aggregationRoots arrivalsDuringTick : List AggRootMsg)
    (channelOpen : Bool) (commitOkAt : Nat → Bool) : CalTickResult :=
  let rootsForTree := aggregationRoots
  if rootsForTree.isEmpty then
    { buffer := arrivalsDuringTick, nackedMsgIds := [], blockWritten := false }
  else
    let r := retryPersistCalendar channelOpen commitOkAt
      (rootsForTree.map fun rootObj => rootObj.msgId) 16 0
    if r.2 then
      { buffer := arrivalsDuringTick, nackedMsgIds := r.1, blockWritten := true }
    else
      { buffer := rootsForTree ++ arrivalsDuringTick, nackedMsgIds := r.1,
        blockWritten := false }

/-!
### Anchor Engine (`btcAnchorLock` path of the calendar service)
-/

/-- A block row as read by `aggregateAndAnchorBTCAsync`
(`attributes: ['id', 'type', 'hash']`, ordered by id ascending). -/
structure BlockRow where
  id : Int
  type : String
  hash : String
deriving DecidableEq, Repr, Inhabited

/-- One entry of `treeData.proofData` for a `cal` leaf. -/
structure BtcProofItem where
  cal_id : Int
  proof : List COp
deriving DecidableEq, Repr, Inhabited

/-- `treeData` built by `aggregateAndAnchorBTCAsync`. -/
structure BtcTreeData where
  anchor_btc_agg_id : String
  anchor_btc_agg_root : String
  proofData : List BtcProofItem
deriving DecidableEq, Repr, Inhabited

/-- `if (!lastBtcAnchorBlockId) lastBtcAnchorBlockId = -1`: a missing (or
JavaScript-falsy `0`) last-anchor id becomes `-1`. -/
def effectiveLastAnchorId : Option Int → Int
  | none => -1
  | some i => if i = 0 then -1 else i

/-- `createBtcAnchorBlockAsync`: append a `btc-a` block with empty `dataId`
and `dataVal = root` after the current top block. -/
def createBtcAnchorBlock (H : Bytes → Bytes) (sigOf : String → String)
    (signingPubKeyHashHex : String) (prevBlock : CalBlock) (now : Nat)
    (stackId root : String) : CalBlock :=
  writeBlockAsync H sigOf signingPubKeyHashHex (prevBlock.id + 1) now stackId "btc-a"
    "" root prevBlock.hash

/-- `aggregateAndAnchorBTCAsync`: return early (no write) when the channel is
null or no block has an id above the last `btc-a` anchor id; otherwise build a
Merkle tree over the hex-decoded hashes of those blocks in id order, record an
inclusion proof for every `cal` leaf, and append a `btc-a` block carrying the
root.  `store` is the ordered block table, `prevBlock` the current top block
read by `createBtcAnchorBlockAsync`. -/
def aggregateAndAnchorBTC (H : Bytes → Bytes) (sigOf : String → String)
    (signingPubKeyHashHex : String) (channelOpen : Bool) (store : List BlockRow)
    (lastBtcAnchorBlockId : Option Int) (prevBlock : CalBlock) (now : Nat)
    (stackId newAggId : String) : Option BtcTreeData × Option CalBlock :=
  if !channelOpen then (none, none)
  else
    let blocks := store.filter fun b => b.id > effectiveLastAnchorId lastBtcAnchorBlockId
    if blocks.isEmpty then (none, none)
    else
      let leaves := blocks.map fun blockObj => hexDecode blockObj.hash
      let root := merkleRoot H leaves
      let proofData := (List.range blocks.length).filterMap fun x =>
        if (blocks.getD x default).type = "cal" then
          some
            { cal_id := (blocks.getD x default).id,
              proof := formatAsChainpointV3Ops (toHexSteps (getProof H leaves x))
                "sha-256" }
        else none
      (some
          { anchor_btc_agg_id := newAggId,
            anchor_btc_agg_root := hexEncode root,
            proofData := proofData },
        some (createBtcAnchorBlock H sigOf signingPubKeyHashHex prevBlock now stackId
          (hexEncode root)))

/-- One state message published by `queueBtcAStateDataAsync` with type
`anchor_btc_agg`. -/
structure BtcAggStateMsg where
  cal_id : Int
  anchor_btc_agg_id : String
  ops : List COp
deriving DecidableEq, Repr, Inhabited

/-- The anchor request published to the BTC-tx queue. -/
structure BtcTxRequestMsg where
  anchor_btc_agg_id : String
  anchor_btc_agg_root : String
deriving DecidableEq, Repr, Inhabited

/-- `queueBtcAStateDataAsync`: with an undefined `treeData` the access to
`treeData.proofData` throws before any publish, so nothing is sent; otherwise
publish one state message per `cal` proof item and one anchor request. -/
def queueBtcAStateData (treeData : Option BtcTreeData) :
    List BtcAggStateMsg × List BtcTxRequestMsg :=
  match treeData with
  | none => ([], [])
  | some td =>
    (td.proofData.map fun proofDataItem =>
        { cal_id := proofDataItem.cal_id,
          anchor_btc_agg_id := td.anchor_btc_agg_id,
          ops := proofDataItem.proof },
      [{ anchor_btc_agg_id := td.anchor_btc_agg_id,
         anchor_btc_agg_root := td.anchor_btc_agg_root }])

/-- Outcome of one `btcAnchorLock` run. -/
structure BtcAnchorRunResult where
  blockWritten : Option CalBlock
  statePublished : List BtcAggStateMsg
  btctxPublished : List BtcTxRequestMsg
deriving DecidableEq, Repr, Inhabited

/-- The `btcAnchorLock` handler: run `aggregateAndAnchorBTCAsync` and hand the
resulting `treeData` to `queueBtcAStateDataAsync`. -/
def btcAnchorLockHandler (H : Bytes → Bytes) (sigOf : String → String)
    (signingPubKeyHashHex : String) (channelOpen : Bool) (store : List BlockRow)
    (lastBtcAnchorBlockId : Option Int) (prevBlock : CalBlock) (now : Nat)
    (stackId newAggId : String) : BtcAnchorRunResult :=
  let r := aggregateAndAnchorBTC H sigOf signingPubKeyHashHex channelOpen store
    lastBtcAnchorBlockId prevBlock now stackId newAggId
  let q := queueBtcAStateData r.1
  { blockWritten := r.2, statePublished := q.1, btctxPublished := q.2 }

/-!
### Reward Engine (`rewardLock` handler of the calendar service)
-/

/-- A `{address, amount}` share of a reward message. -/
structure RewardShare where
  address : String
  amount : Int
deriving DecidableEq, Repr, Inhabited

/-- How `JSON.parse(msg.content.toString())` and the subsequent
`rewardMsgObj.node.address` access turn out: the body may fail to parse, parse
without a `node` property, or parse fully. -/
inductive RewardParseResult where
  | unparseable
  | missingNode (core : Option RewardShare)
  | parsed (node : RewardShare) (core : Option RewardShare)
deriving DecidableEq, Repr

/-- `[x, y].join(':')` turns JavaScript `null` into the empty string. -/
def jsStringOfOpt : Option String → String
  | none => ""
  | some s => s

/-- Outcome of one `rewardLock` handler run. -/
structure RewardHandlerResult where
  nodeTransferAttempted : Bool
  coreTransferAttempted : Bool
  blockWritten : Bool
  acked : Bool
  nacked : Bool
  lockReleased : Bool
deriving DecidableEq, Repr, Inhabited

/-- The `rewardLock` handler.  `JSON.parse` runs before the handler's
`try`/`finally`, so an unparseable message throws without acking, nacking or
releasing the lock; a missing `node` property throws inside the `try`, is
logged, and releases the lock without acking.  For a parsed message
`sendTNTRewardAsync` never throws (it returns the transaction id or `null`),
the core transfer runs only when the core share is positive, and
`createRewardBlockAsync` throws when `dataId` is `null` (`null.toString()`) or
when the database write fails; both the write-success and the write-failure
branch ack the message. -/
def rewardLockHandler (p : RewardParseResult)
    (nodeTransferResult coreTransferResult : Option String) (dbWriteOk : Bool) :
    RewardHandlerResult :=
  match p with
  | .unparseable =>
    { nodeTransferAttempted := false, coreTransferAttempted := false,
      blockWritten := false, acked := false, nacked := false, lockReleased := false }
  | .missingNode _ =>
    { nodeTransferAttempted := false, coreTransferAttempted := false,
      blockWritten := false, acked := false, nacked := false, lockReleased := true }
  | .parsed _ core =>
    let coreTNTGrainsRewardShare : Int :=
      match core with
      | some c => c.amount
      | none => 0
    let nodeRewardTxId : Option String := nodeTransferResult
    let coreAttempted := coreTNTGrainsRewardShare > 0
    let coreRewardTxId : Option String :=
      if coreAttempted then coreTransferResult else some ""
    let dataId : Option String :=
      match core with
      | none => nodeRewardTxId
      | some _ =>
        some (jsStringOfOpt nodeRewardTxId ++ ":" ++ jsStringOfOpt coreRewardTxId)
    { nodeTransferAttempted := true, coreTransferAttempted := coreAttempted,
      blockWritten := dataId.isSome && dbWriteOk, acked := true, nacked := false,
      lockReleased := true }

/-!
### Audit Producer (`node-audit-producer-service/server.js`)
-/

/-- The amount of credits to top off all Nodes with daily. -/
def creditTopoffAmount : Nat := 86400

/-- A registered-Node row as read by `auditNodesAsync`
(`attributes: ['tntAddr', 'publicUri', 'tntCredit']`). -/
structure RegNodeRow where
  tntAddr : String
  publicUri : Option String
  tntCredit : Int
deriving DecidableEq, Repr, Inhabited

/-- One audit task published to the audit queue with type `audit`. -/
structure AuditTask where
  tntAddr : String
  publicUri : Option String
  tntCredit : Int
deriving DecidableEq, Repr, Inhabited

/-- `auditNodesAsync`: `RegisteredNode.findAll` has no filter, so one audit
task is queued per registered Node, whatever its `publicUri`. -/
def auditNodes (nodesReadyForAudit : List RegNodeRow) : List AuditTask :=
  nodesReadyForAudit.map fun n =>
    { tntAddr := n.tntAddr, publicUri := n.publicUri, tntCredit := n.tntCredit }

/-- `calculateChallengeSolutionAsync`: hex-decode the block hashes, prepend the
hex-decoded nonce, and take the Merkle root as a hex string. -/
def calculateChallengeSolution (H : Bytes → Bytes) (blockHashes : List String)
    (nonce : String) : String :=
  hexEncode (merkleRoot H (hexDecode nonce :: blockHashes.map hexDecode))

/-- An audit challenge record. -/
structure AuditChallenge where
  time : Nat
  minBlockHeight : Nat
  maxBlockHeight : Nat
  nonce : String
  solution : String
deriving DecidableEq, Repr, Inhabited

/-- `generateAuditChallengeAsync`: `max = tip > 2000 ? tip - 1000 : tip`,
`min = max - rnd(10, 1000)` floored at `0`, solution over the hashes of blocks
`min..max` (ids ascending).  `hashOf` is the block table's hash column. -/
def generateAuditChallenge (H : Bytes → Bytes) (now currentBlockHeight randomNum : Nat)
    (nonce : String) (hashOf : Nat → String) : AuditChallenge :=
  let challengeMaxBlockHeight :=
    if currentBlockHeight > 2000 then currentBlockHeight - 1000 else currentBlockHeight
  let challengeMinInt : Int := (challengeMaxBlockHeight : Int) - (randomNum : Int)
  let challengeMinBlockHeight : Nat := if challengeMinInt < 0 then 0 else challengeMinInt.toNat
  let blocks := (List.range (challengeMaxBlockHeight - challengeMinBlockHeight + 1)).map
    fun i => hashOf (challengeMinBlockHeight + i)
  { time := now, minBlockHeight := challengeMinBlockHeight,
    maxBlockHeight := challengeMaxBlockHeight, nonce := nonce,
    solution := calculateChallengeSolution H blocks nonce }

/-- `pruneAuditDataAsync`: select the `audit_at` values at least six hours old
(ascending), split them into batches of 250, and emit one
`(startBound, endBound)` prune task per batch.  `allRows` is the `audit_at`
column of the audit log in ascending order. -/
def pruneAuditData (now : Int) (allRows : List Int) : List (Int × Int) :=
  let cutoffTimestamp := now - 360 * 60 * 1000
  let auditAtTimes := allRows.filter fun t => t ≤ cutoffTimestamp
  let pruneBatchesNeeded := (auditAtTimes.length + 249) / 250
  (List.range pruneBatchesNeeded).map fun x =>
    let startBoundIndex := x * 250
    let endBoundIndex0 := startBoundIndex + 250 - 1
    let endBoundIndex :=
      if endBoundIndex0 ≥ auditAtTimes.length then auditAtTimes.length - 1
      else endBoundIndex0
    (auditAtTimes.getD startBoundIndex 0, auditAtTimes.getD endBoundIndex 0)

/-!
### Node Registry API (`node-api-service/lib/endpoints/nodes.js`)
-/

/-- A UTC wall-clock minute, for the claim-side reading of
`moment().utc().format('YYYYMMDDHHmm')` arithmetic. -/
structure UTCMinuteTime where
  year : Nat
  month : Nat
  day : Nat
  hour : Nat
  minute : Nat
deriving DecidableEq, Repr, Inhabited

/-- Gregorian leap years. -/
def isLeapYear (y : Nat) : Bool :=
  (y % 4 = 0 && y % 100 ≠ 0) || y % 400 = 0

/-- Days in a month of the Gregorian calendar. -/
def daysInMonth (y m : Nat) : Nat :=
  match m with
  | 2 => if isLeapYear y then 29 else 28
  | 4 => 30
  | 6 => 30
  | 9 => 30
  | 11 => 30
  | _ => 31

/-- The UTC minute one minute earlier, with proper hour/day/month/year
carries. -/
def minuteSub1 (t : UTCMinuteTime) : UTCMinuteTime :=
  if t.minute > 0 then { t with minute := t.minute - 1 }
  else if t.hour > 0 then { t with hour := t.hour - 1, minute := 59 }
  else if t.day > 1 then { t with day := t.day - 1, hour := 23, minute := 59 }
  else if t.month > 1 then
    { year := t.year, month := t.month - 1, day := daysInMonth t.year (t.month - 1),
      hour := 23, minute := 59 }
  else
    { year := t.year - 1, month := 12, day := 31, hour := 23, minute := 59 }

/-- `parseInt(moment().utc().format('YYYYMMDDHHmm'))`. -/
def formatYYYYMMDDHHmm (t : UTCMinuteTime) : Nat :=
  (((t.year * 100 + t.month) * 100 + t.day) * 100 + t.hour) * 100 + t.minute

/-- `putNodeV1Async`'s acceptable HMAC list: HMACs over
`tnt_addr ++ public_uri ++ (formattedDateInt + x).toString()` for
`x ∈ {-1, 0, 1}` — integer arithmetic on the formatted timestamp.  `hmacFn`
stands for `crypto.createHmac('sha256', key)` applied to a message. -/
def acceptableHMACs (hmacFn : String → String → String)
    (hmacKey tntAddr publicUri : String) (formattedDateInt : Nat) : List String :=
  ([-1, 0, 1] : List Int).map fun x =>
    hmacFn hmacKey (tntAddr ++ publicUri ++ toString ((formattedDateInt : Int) + x))

/-- The HMAC gate of `putNodeV1Async`: the submitted hmac must be one of the
three acceptable values computed at the verification minute `t`. -/
def putNodeHmacAccepted (hmacFn : String → String → String)
    (hmacKey tntAddr publicUri submittedHmac : String) (t : UTCMinuteTime) : Bool :=
  (acceptableHMACs hmacFn hmacKey tntAddr publicUri (formatYYYYMMDDHHmm t)).contains
    submittedHmac

/-- The restify error classes used by the node endpoints. -/
inductive NodeApiError where
  | invalidArgument (msg : String)
  | upgradeRequired
  | forbidden (msg : String)
  | conflict (msg : String)
  | internal (msg : String)
deriving DecidableEq, Repr

/-- `/^0x[0-9a-fA-F]{40}$/i`. -/
def isEthereumAddr (s : String) : Bool :=
  s.data.length == 42 &&
  (match s.data with
   | '0' :: c :: _ => c == 'x' || c == 'X'
   | _ => false) &&
  (s.data.drop 2).all fun c => (hexCharVal c).isSome

/-- The row created by a successful `POST /node`. -/
structure NewRegisteredNode where
  tntAddr : String
  publicUri : Option String
  hmacKey : String
  tntCredit : Nat
deriving DecidableEq, Repr, Inhabited

/-- `postNodeV1Async`.  External collaborators appear as parameters: `semverSat`
is `semver.satisfies` against the minimum new-Node version (`none` when it
throws), `isHttpUri`/`hostnameOf`/`isIPAddr`/`isPrivateIP` are the URI
validation helpers, the four `count` parameters are the successive
`RegisteredNode.count` results, `balanceResult` the TNT balance lookup (`none`
when it throws), `randHMACKey` the fresh random key and `createOk` whether the
insert succeeds.  `publicUriParam = none` covers both an absent and an empty
(JavaScript-falsy) `public_uri`. -/
def postNodeV1 (ctJson : Bool) (versionHeader : Option String)
    (semverSat : String → Option Bool) (tntAddrParam : Option String)
    (publicUriParam : Option String) (isHttpUri : String → Bool)
    (hostnameOf : String → String) (isIPAddr : String → Bool)
    (isPrivateIP : String → Bool) (totalCount1 addrCount uriCount totalCount2 : Nat)
    (regNodesLimit : Nat) (balanceResult : Option Int) (minGrainsBalanceNeeded : Int)
    (randHMACKey : String) (createOk : Bool) : Except NodeApiError NewRegisteredNode :=
  if !ctJson then .error (.invalidArgument "invalid content type")
  else
    let minNodeVersionOK : Option Bool :=
      match versionHeader with
      | none => some false
      | some v => semverSat v
    match minNodeVersionOK with
    | none => .error .upgradeRequired
    | some versionOK =>
      if !versionOK then .error .upgradeRequired
      else
        match tntAddrParam with
        | none => .error (.invalidArgument "invalid JSON body, missing tnt_addr")
        | some tntAddr =>
          if tntAddr.isEmpty then
            .error (.invalidArgument "invalid JSON body, empty tnt_addr")
          else if !isEthereumAddr tntAddr then
            .error (.invalidArgument "invalid JSON body, malformed tnt_addr")
          else
            let lowerCasedTntAddr := jsToLower tntAddr
            let lowerCasedPublicUri : Option String := publicUriParam.map jsToLower
            let uriError : Option NodeApiError :=
              match lowerCasedPublicUri with
              | none => none
              | some u =>
                if !isHttpUri u then
                  some (.invalidArgument "invalid JSON body, invalid public_uri")
                else if !isIPAddr (hostnameOf u) then
                  some (.invalidArgument "public_uri hostname must be an IP")
                else if isPrivateIP (hostnameOf u) then
                  some (.invalidArgument "public_uri hostname must not be a private IP")
                else if hostnameOf u = "0.0.0.0" then
                  some (.invalidArgument "0.0.0.0 not allowed in public_uri")
                else none
            match uriError with
            | some e => .error e
            | none =>
              if totalCount1 ≥ regNodesLimit then
                .error (.forbidden "Maximum number of Node registrations has been reached")
              else if addrCount ≥ 1 then
                .error (.conflict "the Ethereum address provided is already registered")
              else if lowerCasedPublicUri.isSome && uriCount ≥ 1 then
                .error (.conflict "the public URI provided is already registered")
              else
                match balanceResult with
                | none => .error (.internal "unable to check address balance")
                | some nodeBalance =>
                  if nodeBalance < minGrainsBalanceNeeded then
                    .error (.forbidden "below the minimum balance for Node operation")
                  else if totalCount2 ≥ regNodesLimit then
                    .error
                      (.forbidden "Maximum number of Node registrations has been reached")
                  else if !createOk then
                    .error (.internal "could not create RegisteredNode")
                  else
                    .ok
                      { tntAddr := lowerCasedTntAddr, publicUri := lowerCasedPublicUri,
                        hmacKey := randHMACKey, tntCredit := 86400 }

/-! ## Theorems -/

/-- C1: every block written by `writeBlockAsync` has a `hash` field equal to
SHA-256 of the UTF-8 bytes of `"id:time:version:stackId:type:dataId"` built
from the block's own fields, followed by the bytes of `dataVal` (hex-decoded
when `dataVal` is hex, UTF-8 otherwise), followed by the hex-decoded bytes of
`prevHash`. -/
theorem writeBlockAsync_hash_spec (H : Bytes → Bytes) (sigOf : String → String)
    (signingPubKeyHashHex : String) (height time : Nat)
    (stackId ty dataId dataVal prevHash : String) :
    (writeBlockAsync H sigOf signingPubKeyHashHex height time stackId ty dataId dataVal
        prevHash).hash =
      hexEncode (H (utf8Bytes
          (toString (writeBlockAsync H sigOf signingPubKeyHashHex height time stackId ty
              dataId dataVal prevHash).id ++ ":" ++
            toString (writeBlockAsync H sigOf signingPubKeyHashHex height time stackId ty
              dataId dataVal prevHash).time ++ ":" ++
            toString (writeBlockAsync H sigOf signingPubKeyHashHex height time stackId ty
              dataId dataVal prevHash).version ++ ":" ++
            (writeBlockAsync H sigOf signingPubKeyHashHex height time stackId ty dataId
              dataVal prevHash).stackId ++ ":" ++
            (writeBlockAsync H sigOf signingPubKeyHashHex height time stackId ty dataId
              dataVal prevHash).type ++ ":" ++
            (writeBlockAsync H sigOf signingPubKeyHashHex height time stackId ty dataId
              dataVal prevHash).dataId) ++
        (if isHex (writeBlockAsync H sigOf signingPubKeyHashHex height time stackId ty
              dataId dataVal prevHash).dataVal then
          hexDecode (writeBlockAsync H sigOf signingPubKeyHashHex height time stackId ty
            dataId dataVal prevHash).dataVal
        else
          utf8Bytes (writeBlockAsync H sigOf signingPubKeyHashHex height time stackId ty
            dataId dataVal prevHash).dataVal) ++
        hexDecode (writeBlockAsync H sigOf signingPubKeyHashHex height time stackId ty
          dataId dataVal prevHash).prevHash)) := by
  rfl

/-- C3: at the hour boundary `2018-10-12 14:00 UTC` the minute before is
`13:59`, whose formatted timestamp is `201810121359`; yet the HMAC computed
over that timestamp is rejected, because `putNodeV1Async` builds its
acceptable set by integer arithmetic on `201810121400` (accepting only the
strings `201810121399`, `201810121400`, `201810121401`).  The claim — and the
code's own comment — say an HMAC computed one minute earlier is accepted at
every verification time. -/
theorem putNodeHmac_hour_boundary_eval :
    minuteSub1 ⟨2018, 10, 12, 14, 0⟩ = ⟨2018, 10, 12, 13, 59⟩ ∧
    formatYYYYMMDDHHmm (minuteSub1 ⟨2018, 10, 12, 14, 0⟩) = 201810121359 ∧
    putNodeHmacAccepted (fun k m => k ++ "|" ++ m) "key" "0xaddr" "http://1.2.3.4"
      ((fun k m => k ++ "|" ++ m) "key"
        ("0xaddr" ++ "http://1.2.3.4" ++ toString (201810121359 : Int)))
      ⟨2018, 10, 12, 14, 0⟩ = false := by
  decide

/-- C4 (amended): for every reward message that parses with a `node` property,
the handler acks after attempting the transfers — whatever the transfer
results and whether or not the reward block write succeeds — and never
nacks. -/
theorem rewardLockHandler_parsed_always_acks (node : RewardShare)
    (core : Option RewardShare) (nodeTransferResult coreTransferResult : Option String)
    (dbWriteOk : Bool) :
    (rewardLockHandler (.parsed node core) nodeTransferResult coreTransferResult
        dbWriteOk).acked = true ∧
    (rewardLockHandler (.parsed node core) nodeTransferResult coreTransferResult
        dbWriteOk).nacked = false ∧
    (rewardLockHandler (.parsed node core) nodeTransferResult coreTransferResult
        dbWriteOk).nodeTransferAttempted = true := by
  simp [rewardLockHandler]

/-- C4 (counterexample): a reward message whose body does not parse as JSON is
neither acked nor nacked — `JSON.parse` throws before the handler's `try`
block — contradicting the claim that every malformed message is acked. -/
theorem rewardLockHandler_unparseable_unacked :
    (rewardLockHandler .unparseable none none true).acked = false ∧
    (rewardLockHandler .unparseable none none true).nacked = false := by
  decide

/-- With an open channel and a commit that fails at every attempt, the retry
wrapper reports failure and nacks every message at least once. -/
theorem retryPersistCalendar_all_fail (commitOkAt : Nat → Bool) (msgIds : List Nat)
    (hfail : ∀ n, commitOkAt n = false) :
    ∀ fuel attempt, (retryPersistCalendar true commitOkAt msgIds fuel attempt).2 = false ∧
      (0 < fuel → msgIds ⊆ (retryPersistCalendar true commitOkAt msgIds fuel attempt).1)
  | 0, _ => ⟨rfl, fun h => absurd h (by omega)⟩
  | fuel + 1, attempt => by
    have ih := retryPersistCalendar_all_fail commitOkAt msgIds hfail fuel (attempt + 1)
    simp only [retryPersistCalendar, persistCalendarAttempt, hfail attempt]
    simp only [Bool.not_true, Bool.false_eq_true, if_false, ih.1]
    exact ⟨by trivial, fun _ => List.subset_append_left _ _⟩

/-- C5: when the calendar block commit fails (open channel, every one of the
16 persist attempts fails), the snapshotted roots are returned to the head of
the buffer — ahead of the roots that arrived during the tick, whose order is
preserved — no block is written, and every snapshotted root's aggregator
message is nacked. -/
theorem calendarLockHandler_commit_failure_spec (roots arrivals : List AggRootMsg)
    (commitOkAt : Nat → Bool) (hne : roots ≠ [])
    (hfail : ∀ n, commitOkAt n = false) :
    (calendarLockHandler roots arrivals true commitOkAt).buffer = roots ++ arrivals ∧
    (calendarLockHandler roots arrivals true commitOkAt).blockWritten = false ∧
    ∀ rootObj ∈ roots,
      rootObj.msgId ∈ (calendarLockHandler roots arrivals true commitOkAt).nackedMsgIds := by
  have hretry := retryPersistCalendar_all_fail commitOkAt (roots.map fun r => r.msgId)
    hfail 16 0
  simp only [calendarLockHandler, List.isEmpty_eq_true, hne, if_false, hretry.1,
    Bool.false_eq_true]
  refine ⟨by trivial, by trivial, fun rootObj hmem => ?_⟩
  exact hretry.2 (by omega) (List.mem_map_of_mem _ hmem)

/-- C5 witness at a concrete failing tick. -/
theorem calendarLockHandler_commit_failure_witness :
    ([⟨"agg1", "aa", 1⟩] : List AggRootMsg) ≠ [] ∧
    ((calendarLockHandler [⟨"agg1", "aa", 1⟩] [⟨"agg2", "bb", 2⟩] true
        fun _ => false).buffer = [⟨"agg1", "aa", 1⟩] ++ [⟨"agg2", "bb", 2⟩] ∧
      (calendarLockHandler [⟨"agg1", "aa", 1⟩] [⟨"agg2", "bb", 2⟩] true
        fun _ => false).blockWritten = false ∧
      ∀ rootObj ∈ ([⟨"agg1", "aa", 1⟩] : List AggRootMsg),
        rootObj.msgId ∈ (calendarLockHandler [⟨"agg1", "aa", 1⟩] [⟨"agg2", "bb", 2⟩] true
          fun _ => false).nackedMsgIds) :=
  ⟨by decide,
    calendarLockHandler_commit_failure_spec [⟨"agg1", "aa", 1⟩] [⟨"agg2", "bb", 2⟩]
      (fun _ => false) (by decide) (fun _ => rfl)⟩

/-- C6: every generated audit challenge has `max = tip - 1000` when
`tip > 2000` and `max = tip` otherwise, `min = max - randomNum` clamped below
at `0`, and a solution equal to the Merkle root of the leaf sequence whose
first leaf is the nonce followed by the hashes of blocks `min..max` in
ascending id order. -/
theorem generateAuditChallenge_spec (H : Bytes → Bytes)
    (now currentBlockHeight randomNum : Nat) (nonce : String) (hashOf : Nat → String)
    (hrand : 10 ≤ randomNum ∧ randomNum ≤ 1000) :
    (generateAuditChallenge H now currentBlockHeight randomNum nonce hashOf).maxBlockHeight
      = (if currentBlockHeight > 2000 then currentBlockHeight - 1000
        else currentBlockHeight) ∧
    ((generateAuditChallenge H now currentBlockHeight randomNum nonce
        hashOf).minBlockHeight : Int)
      = max (((generateAuditChallenge H now currentBlockHeight randomNum nonce
          hashOf).maxBlockHeight : Int) - (randomNum : Int)) 0 ∧
    (generateAuditChallenge H now currentBlockHeight randomNum nonce hashOf).solution
      = hexEncode (merkleRoot H (hexDecode nonce ::
          (List.range
            ((generateAuditChallenge H now currentBlockHeight randomNum nonce
                hashOf).maxBlockHeight -
              (generateAuditChallenge H now currentBlockHeight randomNum nonce
                hashOf).minBlockHeight + 1)).map
            fun i => hexDecode (hashOf
              ((generateAuditChallenge H now currentBlockHeight randomNum nonce
                hashOf).minBlockHeight + i)))) := by
  have hclamp : ∀ a : Int, (((if a < 0 then 0 else a.toNat) : Nat) : Int) = max a 0 := by
    intro a
    split <;> omega
  refine ⟨rfl, ?_, ?_⟩
  · simp only [generateAuditChallenge]
    exact hclamp _
  · simp only [generateAuditChallenge, calculateChallengeSolution, List.map_map,
      Function.comp_def]

/-- C6 witness at a concrete small calendar. -/
theorem generateAuditChallenge_spec_witness :
    (10 ≤ 10 ∧ 10 ≤ 1000) ∧
    ((generateAuditChallenge (fun _ => [0]) 0 5 10 "ab" (fun _ => "cd")).maxBlockHeight
        = (if 5 > 2000 then 5 - 1000 else 5) ∧
      ((generateAuditChallenge (fun _ => [0]) 0 5 10 "ab"
          (fun _ => "cd")).minBlockHeight : Int)
        = max (((generateAuditChallenge (fun _ => [0]) 0 5 10 "ab"
            (fun _ => "cd")).maxBlockHeight : Int) - ((10 : Nat) : Int)) 0 ∧
      (generateAuditChallenge (fun _ => [0]) 0 5 10 "ab" (fun _ => "cd")).solution
        = hexEncode (merkleRoot (fun _ => [0]) (hexDecode "ab" ::
            (List.range
              ((generateAuditChallenge (fun _ => [0]) 0 5 10 "ab"
                  (fun _ => "cd")).maxBlockHeight -
                (generateAuditChallenge (fun _ => [0]) 0 5 10 "ab"
                  (fun _ => "cd")).minBlockHeight + 1)).map
              fun i => hexDecode ((fun _ => "cd")
                ((generateAuditChallenge (fun _ => [0]) 0 5 10 "ab"
                  (fun _ => "cd")).minBlockHeight + i))))) :=
  ⟨by decide,
    generateAuditChallenge_spec (fun _ => [0]) 0 5 10 "ab" (fun _ => "cd") (by decide)⟩

/-- C7 (amended): the pruner's tasks cover exactly the audit rows whose
`audit_at` is at least six hours (`360 * 60 * 1000` ms) before now, split into
batches of 250: there are `ceil(n/250)` tasks and task `x` carries the
`audit_at` bounds of selected rows `250x` and `min(250x + 249, n - 1)`. -/
theorem pruneAuditData_spec (now : Int) (allRows : List Int) :
    pruneAuditData now allRows =
      (List.range
        (((allRows.filter fun t => t ≤ now - 360 * 60 * 1000).length + 249) / 250)).map
        fun x =>
          ((allRows.filter fun t => t ≤ now - 360 * 60 * 1000).getD (250 * x) 0,
            (allRows.filter fun t => t ≤ now - 360 * 60 * 1000).getD
              (min (250 * x + 249)
                ((allRows.filter fun t => t ≤ now - 360 * 60 * 1000).length - 1)) 0) := by
  simp only [pruneAuditData]
  apply List.map_congr_left
  intro x hx
  have hxlt := List.mem_range.mp hx
  have hmul : x * 250 = 250 * x := Nat.mul_comm x 250
  rw [hmul]
  congr 1
  have hidx : (if 250 * x + 250 - 1 ≥
        (allRows.filter fun t => t ≤ now - 360 * 60 * 1000).length then
      (allRows.filter fun t => t ≤ now - 360 * 60 * 1000).length - 1
    else 250 * x + 250 - 1) =
      min (250 * x + 249)
        ((allRows.filter fun t => t ≤ now - 360 * 60 * 1000).length - 1) := by
    rw [Nat.min_def]
    split <;> split <;> omega
  rw [hidx]

set_option maxRecDepth 8000 in
/-- C7 (counterexample): with 251 prunable rows the pruner emits two batch
tasks, not the single task that a batch size of 500 would give. -/
theorem pruneAuditData_batch500_counterexample :
    ((((List.range 251).map fun i => -(30000000 : Int) + (i : Int)).filter
        fun t => t ≤ (0 : Int) - 360 * 60 * 1000).length = 251) ∧
    (pruneAuditData 0 ((List.range 251).map
        fun i => -(30000000 : Int) + (i : Int))).length = 2 ∧
    (pruneAuditData 0 ((List.range 251).map
        fun i => -(30000000 : Int) + (i : Int))).length ≠ (251 + 499) / 500 := by
  decide

/-- C8: at a registry containing a single Node with a null `publicUri`,
`auditNodesAsync` still enqueues an audit task for it — `findAll` has no
filter — although the claim (and the function's own comment) say only Nodes
with a non-null `publicUri` are selected. -/
theorem auditNodes_null_uri_enqueued :
    auditNodes [{ tntAddr := "0xnode", publicUri := none, tntCredit := 0 }] =
      [{ tntAddr := "0xnode", publicUri := none, tntCredit := 0 }] := by
  decide

/-- C9: an anchor run that finds no block with id above the last `btc-a`
anchor id writes no `btc-a` block and publishes neither state messages nor a
BTC-tx request. -/
theorem btcAnchorLockHandler_no_new_blocks_spec (H : Bytes → Bytes)
    (sigOf : String → String) (signingPubKeyHashHex : String) (channelOpen : Bool)
    (store : List BlockRow) (lastBtcAnchorBlockId : Option Int) (prevBlock : CalBlock)
    (now : Nat) (stackId newAggId : String)
    (hempty : store.filter
      (fun b => b.id > effectiveLastAnchorId lastBtcAnchorBlockId) = []) :
    btcAnchorLockHandler H sigOf signingPubKeyHashHex channelOpen store
        lastBtcAnchorBlockId prevBlock now stackId newAggId =
      { blockWritten := none, statePublished := [], btctxPublished := [] } := by
  simp only [btcAnchorLockHandler, aggregateAndAnchorBTC, hempty]
  cases channelOpen <;> simp [queueBtcAStateData]

/-- C9 witness at a concrete quiet anchor run. -/
theorem btcAnchorLockHandler_no_new_blocks_witness :
    (([⟨3, "cal", "ab"⟩] : List BlockRow).filter
      (fun b => b.id > effectiveLastAnchorId (some 5)) = []) ∧
    btcAnchorLockHandler (fun _ => [0]) (fun _ => "") "fp" true [⟨3, "cal", "ab"⟩]
        (some 5) default 0 "stack" "agg" =
      { blockWritten := none, statePublished := [], btctxPublished := [] } :=
  ⟨by decide,
    btcAnchorLockHandler_no_new_blocks_spec (fun _ => [0]) (fun _ => "") "fp" true
      [⟨3, "cal", "ab"⟩] (some 5) default 0 "stack" "agg" (by decide)⟩

set_option maxHeartbeats 1600000 in
/-- C10: every Node row created by a successful `POST /node` has
`tntCredit = 86400`, the daily credit top-off amount, whatever the request
parameters and environment were. -/
theorem postNodeV1_tntCredit_spec (ctJson : Bool) (versionHeader : Option String)
    (semverSat : String → Option Bool) (tntAddrParam : Option String)
    (publicUriParam : Option String) (isHttpUri : String → Bool)
    (hostnameOf : String → String) (isIPAddr : String → Bool)
    (isPrivateIP : String → Bool) (totalCount1 addrCount uriCount totalCount2 : Nat)
    (regNodesLimit : Nat) (balanceResult : Option Int) (minGrainsBalanceNeeded : Int)
    (randHMACKey : String) (createOk : Bool) (node : NewRegisteredNode)
    (h : postNodeV1 ctJson versionHeader semverSat tntAddrParam publicUriParam isHttpUri
      hostnameOf isIPAddr isPrivateIP totalCount1 addrCount uriCount totalCount2
      regNodesLimit balanceResult minGrainsBalanceNeeded randHMACKey createOk =
      .ok node) :
    node.tntCredit = 86400 ∧ node.tntCredit = creditTopoffAmount := by
  simp only [postNodeV1] at h
  repeat' split at h
  all_goals first
    | exact Except.noConfusion h
    | (injection h with h2; subst h2; exact ⟨rfl, rfl⟩)

/-- C10 witness at a concrete successful registration. -/
theorem postNodeV1_tntCredit_witness :
    postNodeV1 true (some "1.4.0") (fun _ => some true)
        (some "0xaaaaaaaaaaaaaaaaaaaaaaaaaaaaaaaaaaaaaaaa") none (fun _ => true)
        (fun u => u) (fun _ => true) (fun _ => false) 0 0 0 0 10 (some 500000000000) 0
        "cafe" true =
      .ok { tntAddr := "0xaaaaaaaaaaaaaaaaaaaaaaaaaaaaaaaaaaaaaaaa", publicUri := none,
            hmacKey := "cafe", tntCredit := 86400 } ∧
    (86400 : Nat) = creditTopoffAmount := by
  have h : postNodeV1 true (some "1.4.0") (fun _ => some true)
      (some "0xaaaaaaaaaaaaaaaaaaaaaaaaaaaaaaaaaaaaaaaa") none (fun _ => true)
      (fun u => u) (fun _ => true) (fun _ => false) 0 0 0 0 10 (some 500000000000) 0
      "cafe" true =
      .ok { tntAddr := "0xaaaaaaaaaaaaaaaaaaaaaaaaaaaaaaaaaaaaaaaa", publicUri := none,
            hmacKey := "cafe", tntCredit := 86400 } := by rfl
  have h2 := postNodeV1_tntCredit_spec true (some "1.4.0") (fun _ => some true)
    (some "0xaaaaaaaaaaaaaaaaaaaaaaaaaaaaaaaaaaaaaaaa") none (fun _ => true)
    (fun u => u) (fun _ => true) (fun _ => false) 0 0 0 0 10 (some 500000000000) 0
    "cafe" true _ h
  exact ⟨h, h2.2.symm ▸ rfl⟩

/-! ### Hex round-trip lemmas -/

/-- `hexCharVal` inverts `hexDigitChar` below 16. -/
theorem hexCharVal_hexDigitChar (n : Nat) (h : n < 16) :
    hexCharVal (hexDigitChar n) = some n := by
  interval_cases n <;> decide

/-- Decoding inverts encoding at the character-list level for byte values. -/
theorem hexDecodeChars_encode (v : Bytes) (h : ∀ b ∈ v, b < 256) :
    hexDecodeChars ((v.map hexEncodeByte).flatten) = v := by
  induction v with
  | nil => rfl
  | cons b rest ih =>
    have hb : b < 256 := h b (List.mem_cons_self _ _)
    have h1 := hexCharVal_hexDigitChar (b / 16 % 16) (Nat.mod_lt _ (by omega))
    have h2 := hexCharVal_hexDigitChar (b % 16) (Nat.mod_lt _ (by omega))
    have ih2 := ih fun x hx => h x (List.mem_cons_of_mem _ hx)
    simp only [List.map_cons, List.flatten_cons, hexEncodeByte, List.cons_append,
      List.nil_append, List.append_eq, hexDecodeChars, h1, h2, ih2]
    congr 1
    omega

/-- `Buffer.from(buf.toString('hex'), 'hex')` returns the original bytes. -/
theorem hexDecode_hexEncode (v : Bytes) (h : ∀ b ∈ v, b < 256) :
    hexDecode (hexEncode v) = v :=
  hexDecodeChars_encode v h

/-- The hex encoding of a buffer has twice as many characters as bytes. -/
theorem hexEncode_data_length (v : Bytes) :
    ((v.map hexEncodeByte).flatten).length = 2 * v.length := by
  induction v with
  | nil => rfl
  | cons b rest ih =>
    simp only [List.map_cons, List.flatten_cons, hexEncodeByte, List.cons_append,
      List.nil_append, List.length_cons, ih]
    omega

/-- The hex encoding of a nonempty buffer satisfies `isHex`. -/
theorem isHex_hexEncode (v : Bytes) (hne : v ≠ []) : isHex (hexEncode v) = true := by
  have hlen := hexEncode_data_length v
  simp only [isHex, hexEncode, Bool.and_eq_true, beq_iff_eq, List.all_eq_true]
  refine ⟨⟨?_, by omega⟩, ?_⟩
  · cases v with
    | nil => exact absurd rfl hne
    | cons b rest => rfl
  · intro c hc
    obtain ⟨l, hl, hcl⟩ := List.mem_flatten.mp hc
    obtain ⟨b, _, rfl⟩ := List.mem_map.mp hl
    simp only [hexEncodeByte, List.mem_cons, List.mem_singleton] at hcl
    rcases hcl with rfl | rfl | h
    · simp [hexCharVal_hexDigitChar (b / 16 % 16) (Nat.mod_lt _ (by omega))]
    · simp [hexCharVal_hexDigitChar (b % 16) (Nat.mod_lt _ (by omega))]
    · cases h

/-- Replaying a hex-encoded operation value recovers the original bytes. -/
theorem opValueBytes_hexEncode (v : Bytes) (hne : v ≠ []) (h : ∀ b ∈ v, b < 256) :
    opValueBytes (hexEncode v) = v := by
  simp [opValueBytes, isHex_hexEncode v hne, hexDecode_hexEncode v h]

/-- A string containing a colon is not hex. -/
theorem isHex_eq_false_of_colon (s : String) (h : ':' ∈ s.data) : isHex s = false := by
  simp only [isHex, Bool.and_eq_false_iff]
  right
  simp only [List.all_eq_false]
  exact ⟨':', h, by decide⟩

/-- The `"id:time:version:stackId:type:dataId"` string is never hex (it
contains colons), so replay treats it as UTF-8. -/
theorem blockDataString_not_isHex (b : CalBlock) :
    isHex (blockDataString b) = false := by
  apply isHex_eq_false_of_colon
  simp only [blockDataString, String.data_append]
  simp

/-! ### Merkle inclusion-proof lemmas -/

/-- Exact length of one level. -/
theorem buildLevel_length (H : Bytes → Bytes) :
    ∀ l : List Bytes, (buildLevel H l).length = (l.length + 1) / 2
  | [] => rfl
  | [_] => by simp [buildLevel]
  | _ :: _ :: rest => by
    have ih := buildLevel_length H rest
    simp only [buildLevel, List.length_cons, ih]
    omega

/-- The Merkle root is fuel-invariant once the fuel covers the leaf count. -/
theorem merkleRootAux_fuel (H : Bytes → Bytes) :
    ∀ (fuel1 fuel2 : Nat) (l : List Bytes), l.length ≤ fuel1 → l.length ≤ fuel2 →
      merkleRootAux H fuel1 l = merkleRootAux H fuel2 l := by
  intro fuel1
  induction fuel1 with
  | zero =>
    intro fuel2 l h1 _
    match l with
    | [] => cases fuel2 <;> rfl
    | a :: rest => simp at h1
  | succ fuel ih =>
    intro fuel2 l h1 h2
    match l with
    | [] => cases fuel2 <;> rfl
    | [a] => cases fuel2 <;> rfl
    | a :: b :: rest =>
      have hbl := buildLevel_length H (a :: b :: rest)
      simp only [List.length_cons] at h1 h2 hbl
      match fuel2 with
      | fuel2x + 1 =>
        simp only [merkleRootAux]
        have hle1 : (buildLevel H (a :: b :: rest)).length ≤ fuel := by omega
        have hle2 : (buildLevel H (a :: b :: rest)).length ≤ fuel2x := by omega
        exact ih fuel2x _ hle1 hle2

/-- Unfolding the Merkle root one level. -/
theorem merkleRoot_step (H : Bytes → Bytes) (a b : Bytes) (rest : List Bytes) :
    merkleRoot H (a :: b :: rest) = merkleRoot H (buildLevel H (a :: b :: rest)) := by
  show merkleRootAux H (rest.length + 2) (a :: b :: rest) = _
  rw [merkleRootAux]
  apply merkleRootAux_fuel
  · have hbl := buildLevel_length H (a :: b :: rest)
    simp only [List.length_cons] at hbl ⊢
    omega
  · exact Nat.le_refl _

/-- The inclusion proof is fuel-invariant once the fuel covers the leaf
count. -/
theorem getProofFuel_fuel (H : Bytes → Bytes) :
    ∀ (fuel1 fuel2 : Nat) (l : List Bytes) (idx : Nat), l.length ≤ fuel1 →
      l.length ≤ fuel2 → getProofFuel H fuel1 l idx = getProofFuel H fuel2 l idx := by
  intro fuel1
  induction fuel1 with
  | zero =>
    intro fuel2 l idx h1 _
    match l with
    | [] => cases fuel2 <;> rfl
    | a :: rest => simp at h1
  | succ fuel ih =>
    intro fuel2 l idx h1 h2
    match l with
    | [] => cases fuel2 <;> rfl
    | [a] => cases fuel2 <;> rfl
    | a :: b :: rest =>
      have hbl := buildLevel_length H (a :: b :: rest)
      simp only [List.length_cons] at h1 h2 hbl
      match fuel2 with
      | fuel2x + 1 =>
        simp only [getProofFuel]
        have hle1 : (buildLevel H (a :: b :: rest)).length ≤ fuel := by omega
        have hle2 : (buildLevel H (a :: b :: rest)).length ≤ fuel2x := by omega
        rw [ih fuel2x _ _ hle1 hle2]

/-- Unfolding the inclusion proof one level. -/
theorem getProof_step (H : Bytes → Bytes) (a b : Bytes) (rest : List Bytes) (idx : Nat) :
    getProof H (a :: b :: rest) idx =
      (if idx = (a :: b :: rest).length - 1 ∧ (a :: b :: rest).length % 2 = 1 then []
        else if idx % 2 = 1 then [PItem.left ((a :: b :: rest).getD (idx - 1) [])]
        else [PItem.right ((a :: b :: rest).getD (idx + 1) [])]) ++
        getProof H (buildLevel H (a :: b :: rest)) (idx / 2) := by
  show getProofFuel H (rest.length + 2) (a :: b :: rest) idx = _
  rw [getProofFuel]
  congr 1
  apply getProofFuel_fuel
  · have hbl := buildLevel_length H (a :: b :: rest)
    simp only [List.length_cons] at hbl ⊢
    omega
  · exact Nat.le_refl _

/-- Byte-level replay distributes over appended proofs. -/
theorem replayB_append (H : Bytes → Bytes) :
    ∀ (p q : List PItem) (acc : Bytes),
      replayB H (p ++ q) acc = replayB H q (replayB H p acc)
  | [], _, _ => rfl
  | .left _ :: rest, q, acc => by
    simp only [List.cons_append, replayB]
    exact replayB_append H rest q _
  | .right _ :: rest, q, acc => by
    simp only [List.cons_append, replayB]
    exact replayB_append H rest q _

/-- Indexing one level at a paired position. -/
theorem buildLevel_getD (H : Bytes → Bytes) :
    ∀ (l : List Bytes) (j : Nat), 2 * j + 1 < l.length →
      (buildLevel H l).getD j [] = H (l.getD (2 * j) [] ++ l.getD (2 * j + 1) [])
  | [], j, h => by simp at h
  | [_], j, h => by simp only [List.length_cons, List.length_nil] at h; omega
  | a :: b :: rest, 0, h => by simp [buildLevel]
  | a :: b :: rest, j + 1, h => by
    have ih := buildLevel_getD H rest j
      (by simp only [List.length_cons] at h ⊢; omega)
    have e1 : 2 * (j + 1) = 2 * j + 2 := by omega
    have e2 : 2 * (j + 1) + 1 = 2 * j + 3 := by omega
    rw [e2, e1]
    simp only [buildLevel, List.getD_cons_succ]
    exact ih

/-- Indexing one level at the promoted odd position. -/
theorem buildLevel_getD_last (H : Bytes → Bytes) :
    ∀ l : List Bytes, l.length % 2 = 1 →
      (buildLevel H l).getD ((l.length - 1) / 2) [] = l.getD (l.length - 1) []
  | [], h => by simp at h
  | [a], h => by simp [buildLevel]
  | a :: b :: rest, h => by
    have hr : rest.length % 2 = 1 := by simp only [List.length_cons] at h; omega
    have ih := buildLevel_getD_last H rest hr
    simp only [buildLevel, List.length_cons]
    have e1 : (rest.length + 1 + 1 - 1) / 2 = (rest.length - 1) / 2 + 1 := by omega
    have e2 : rest.length + 1 + 1 - 1 = rest.length - 1 + 1 + 1 := by omega
    rw [e1, e2]
    simp only [List.getD_cons_succ]
    exact ih

/-- Replaying the byte-level inclusion proof of any leaf yields the Merkle
root. -/
theorem replayB_getProof (H : Bytes → Bytes) :
    ∀ (l : List Bytes) (idx : Nat), idx < l.length →
      replayB H (getProof H l idx) (l.getD idx []) = merkleRoot H l
  | [], idx, h => by simp at h
  | [a], idx, h => by
    have hidx : idx = 0 := by
      simp only [List.length_cons, List.length_nil] at h
      omega
    subst hidx
    rfl
  | a :: b :: rest, idx, h => by
    have hlen : (a :: b :: rest).length = rest.length + 2 := by
      simp only [List.length_cons]
    have hbl := buildLevel_length H (a :: b :: rest)
    have hidx2 : idx / 2 < (buildLevel H (a :: b :: rest)).length := by
      rw [hbl]
      simp only [List.length_cons] at h ⊢
      omega
    have ih := replayB_getProof H (buildLevel H (a :: b :: rest)) (idx / 2) hidx2
    rw [getProof_step, replayB_append]
    have hentry : replayB H
        (if idx = (a :: b :: rest).length - 1 ∧ (a :: b :: rest).length % 2 = 1 then []
          else if idx % 2 = 1 then [PItem.left ((a :: b :: rest).getD (idx - 1) [])]
          else [PItem.right ((a :: b :: rest).getD (idx + 1) [])])
        ((a :: b :: rest).getD idx []) =
        (buildLevel H (a :: b :: rest)).getD (idx / 2) [] := by
      by_cases hA : idx = (a :: b :: rest).length - 1 ∧ (a :: b :: rest).length % 2 = 1
      · rw [if_pos hA]
        obtain ⟨h1, h2⟩ := hA
        have hlast := buildLevel_getD_last H (a :: b :: rest) h2
        have e : idx / 2 = ((a :: b :: rest).length - 1) / 2 := by rw [h1]
        rw [replayB, e, hlast, h1]
      · rw [if_neg hA]
        by_cases hodd : idx % 2 = 1
        · rw [if_pos hodd]
          have hb2 : 2 * (idx / 2) + 1 < (a :: b :: rest).length := by
            simp only [List.length_cons] at h ⊢
            omega
          have hb := buildLevel_getD H (a :: b :: rest) (idx / 2) hb2
          have e1 : 2 * (idx / 2) = idx - 1 := by omega
          have e2 : 2 * (idx / 2) + 1 = idx := by omega
          rw [hb, e2, e1]
          rfl
        · rw [if_neg hodd]
          have heven : idx % 2 = 0 := by omega
          have hlt : idx + 1 < (a :: b :: rest).length := by
            rcases Nat.eq_or_lt_of_le (Nat.succ_le_of_lt h) with he | hl
            · exfalso
              apply hA
              constructor
              · omega
              · simp only [List.length_cons] at he ⊢
                omega
            · exact hl
          have hb2 : 2 * (idx / 2) + 1 < (a :: b :: rest).length := by omega
          have hb := buildLevel_getD H (a :: b :: rest) (idx / 2) hb2
          have e1 : 2 * (idx / 2) = idx := by omega
          have e2 : 2 * (idx / 2) + 1 = idx + 1 := by omega
          rw [hb, e2, e1]
          rfl
    rw [hentry, ih, merkleRoot_step]
termination_by l _ _ => l.length
decreasing_by
  simp only [buildLevel, List.length_cons]
  have hle := buildLevel_length_le H rest
  omega

/-! ### Byte-valuedness of tree nodes -/

/-- A hex digit value is below 16. -/
theorem hexCharVal_lt (c : Char) (n : Nat) (h : hexCharVal c = some n) : n < 16 := by
  simp only [hexCharVal] at h
  split at h <;> first
    | (injection h with h2; omega)
    | (split at h <;> first
        | (injection h with h2; omega)
        | (split at h <;> first
            | (injection h with h2; omega)
            | exact Option.noConfusion h))

/-- Hex decoding produces byte values. -/
theorem hexDecodeChars_lt : ∀ (l : List Char), ∀ b ∈ hexDecodeChars l, b < 256
  | [], b, hb => by simp [hexDecodeChars] at hb
  | [c], b, hb => by simp [hexDecodeChars] at hb
  | c1 :: c2 :: rest, b, hb => by
    rw [hexDecodeChars] at hb
    cases h1 : hexCharVal c1 with
    | none => rw [h1] at hb; simp at hb
    | some hi =>
      cases h2 : hexCharVal c2 with
      | none => rw [h1, h2] at hb; simp at hb
      | some lo =>
        rw [h1, h2] at hb
        simp only [List.mem_cons] at hb
        rcases hb with rfl | hb2
        · have hh1 := hexCharVal_lt c1 hi h1
          have hh2 := hexCharVal_lt c2 lo h2
          omega
        · exact hexDecodeChars_lt rest b hb2

/-- `hexDecode` produces byte values. -/
theorem hexDecode_lt (s : String) : ∀ b ∈ hexDecode s, b < 256 :=
  hexDecodeChars_lt s.data

/-- In-range `getD` values are members. -/
theorem getD_mem {α : Type} (l : List α) (i : Nat) (d : α) (h : i < l.length) :
    l.getD i d ∈ l := by
  rw [List.getD_eq_getElem l d h]
  exact List.getElem_mem h

/-- `getD` commutes with `map` at in-range indices. -/
theorem getD_map {α β : Type} (f : α → β) (l : List α) (i : Nat) (d : β) (dd : α)
    (h : i < l.length) : (l.map f).getD i d = f (l.getD i dd) := by
  rw [List.getD_eq_getElem (l.map f) d (by simpa using h), List.getD_eq_getElem l dd h]
  simp

/-- `buildLevel` preserves nonempty byte-valued nodes whenever the hash only
produces nonempty byte buffers. -/
theorem buildLevel_good (H : Bytes → Bytes)
    (hH : ∀ bs, H bs ≠ [] ∧ ∀ b ∈ H bs, b < 256) :
    ∀ l : List Bytes, (∀ a ∈ l, a ≠ [] ∧ ∀ b ∈ a, b < 256) →
      ∀ a ∈ buildLevel H l, a ≠ [] ∧ ∀ b ∈ a, b < 256
  | [], _, a, ha => by simp [buildLevel] at ha
  | [x], hl, a, ha => by
    simp only [show buildLevel H [x] = [x] from by simp [buildLevel],
      List.mem_singleton] at ha
    rw [ha]
    exact hl x (List.mem_singleton.mpr rfl)
  | x :: y :: rest, hl, a, ha => by
    rw [buildLevel] at ha
    simp only [List.mem_cons] at ha
    rcases ha with rfl | ha2
    · exact hH _
    · exact buildLevel_good H hH rest
        (fun v hv => hl v (List.mem_cons_of_mem _ (List.mem_cons_of_mem _ hv))) a ha2

/-- The Merkle root of good leaves is a nonempty byte buffer. -/
theorem merkleRoot_good (H : Bytes → Bytes)
    (hH : ∀ bs, H bs ≠ [] ∧ ∀ b ∈ H bs, b < 256) :
    ∀ l : List Bytes, l ≠ [] → (∀ a ∈ l, a ≠ [] ∧ ∀ b ∈ a, b < 256) →
      merkleRoot H l ≠ [] ∧ ∀ b ∈ merkleRoot H l, b < 256
  | [], h, _ => absurd rfl h
  | [a], _, hl => by
    rw [show merkleRoot H [a] = a from rfl]
    exact hl a (List.mem_singleton.mpr rfl)
  | a :: b :: rest, _, hl => by
    rw [merkleRoot_step]
    refine merkleRoot_good H hH (buildLevel H (a :: b :: rest)) ?_
      (buildLevel_good H hH _ hl)
    rw [buildLevel]
    exact List.cons_ne_nil _ _
termination_by l _ _ => l.length
decreasing_by
  simp only [buildLevel, List.length_cons]
  have hle := buildLevel_length_le H rest
  omega

/-- Every sibling value in an inclusion proof over good leaves is a nonempty
byte buffer. -/
theorem getProof_good (H : Bytes → Bytes)
    (hH : ∀ bs, H bs ≠ [] ∧ ∀ b ∈ H bs, b < 256) :
    ∀ (l : List Bytes) (idx : Nat), idx < l.length →
      (∀ a ∈ l, a ≠ [] ∧ ∀ b ∈ a, b < 256) →
      ∀ it ∈ getProof H l idx, it.val ≠ [] ∧ ∀ b ∈ it.val, b < 256
  | [], idx, h, _, it, hit => by simp at h
  | [a], idx, h, _, it, hit => by
    simp only [show getProof H [a] idx = [] from rfl] at hit
    exact absurd hit (List.not_mem_nil it)
  | a :: b :: rest, idx, h, hl, it, hit => by
    have hbl := buildLevel_length H (a :: b :: rest)
    have hidx2 : idx / 2 < (buildLevel H (a :: b :: rest)).length := by
      rw [hbl]
      simp only [List.length_cons] at h ⊢
      omega
    rw [getProof_step] at hit
    rcases List.mem_append.mp hit with hentry | hrec
    · by_cases hA : idx = (a :: b :: rest).length - 1 ∧ (a :: b :: rest).length % 2 = 1
      · rw [if_pos hA] at hentry
        exact absurd hentry (List.not_mem_nil it)
      · rw [if_neg hA] at hentry
        by_cases hodd : idx % 2 = 1
        · rw [if_pos hodd, List.mem_singleton] at hentry
          subst hentry
          exact hl _ (getD_mem _ _ _ (by simp only [List.length_cons] at h ⊢; omega))
        · rw [if_neg hodd, List.mem_singleton] at hentry
          subst hentry
          have hlt : idx + 1 < (a :: b :: rest).length := by
            rcases Nat.eq_or_lt_of_le (Nat.succ_le_of_lt h) with he | hlx
            · exfalso
              apply hA
              constructor
              · omega
              · simp only [List.length_cons] at he ⊢
                omega
            · exact hlx
          exact hl _ (getD_mem _ _ _ hlt)
    · exact getProof_good H hH (buildLevel H (a :: b :: rest)) (idx / 2) hidx2
        (buildLevel_good H hH _ hl) it hrec
termination_by l _ _ _ _ _ => l.length
decreasing_by
  simp only [buildLevel, List.length_cons]
  have hle := buildLevel_length_le H rest
  omega

/-! ### String-level replay of formatted proofs -/

/-- Replay distributes over appended operation lists. -/
theorem replayOps_append (hashFor : String → Bytes → Bytes) :
    ∀ (p q : List COp) (acc : Bytes),
      replayOps hashFor (p ++ q) acc = replayOps hashFor q (replayOps hashFor p acc)
  | [], _, _ => rfl
  | .l _ :: rest, q, acc => by
    simp only [List.cons_append, replayOps]
    exact replayOps_append hashFor rest q _
  | .r _ :: rest, q, acc => by
    simp only [List.cons_append, replayOps]
    exact replayOps_append hashFor rest q _
  | .op _ :: rest, q, acc => by
    simp only [List.cons_append, replayOps]
    exact replayOps_append hashFor rest q _

/-- Replaying the formatted (hex-string valued) ops of a byte-level proof under
`sha-256` equals the byte-level replay, provided every sibling value is a
nonempty byte buffer. -/
theorem replayOps_format (hashFor : String → Bytes → Bytes) (H : Bytes → Bytes)
    (hhf : hashFor "sha-256" = H) :
    ∀ (p : List PItem) (acc : Bytes),
      (∀ it ∈ p, it.val ≠ [] ∧ ∀ b ∈ it.val, b < 256) →
      replayOps hashFor (formatAsChainpointV3Ops (toHexSteps p) "sha-256") acc =
        replayB H p acc
  | [], _, _ => rfl
  | .left v :: rest, acc, hp => by
    have hv := hp (.left v) (List.mem_cons_self _ _)
    simp only [toHexSteps, List.map_cons, formatAsChainpointV3Ops, replayOps, replayB]
    rw [opValueBytes_hexEncode v hv.1 hv.2, hhf]
    have ih := replayOps_format hashFor H hhf rest (H (v ++ acc))
      (fun it hit => hp it (List.mem_cons_of_mem _ hit))
    simpa [toHexSteps] using ih
  | .right v :: rest, acc, hp => by
    have hv := hp (.right v) (List.mem_cons_self _ _)
    simp only [toHexSteps, List.map_cons, formatAsChainpointV3Ops, replayOps, replayB]
    rw [opValueBytes_hexEncode v hv.1 hv.2, hhf]
    have ih := replayOps_format hashFor H hhf rest (H (acc ++ v))
      (fun it hit => hp it (List.mem_cons_of_mem _ hit))
    simpa [toHexSteps] using ih

/-- C2: for every aggregation root of a calendar tick, the published `cal`
state message consists of that root's formatted Merkle inclusion ops followed
by exactly the three extension ops `{l: "id:time:version:stackId:type:dataId"}`,
`{r: prevHash}`, `{op: "sha-256"}` taken from the appended `cal` block, and
replaying the whole segment from the aggregation root yields that block's
hash.  `hH` states that the hash function returns nonempty byte buffers (true
of SHA-256, which returns 32 bytes), `hhf` ties the replay's `sha-256`
operation to it, and `hroots` states that each submitted `agg_root` hex string
decodes to a nonempty buffer (true of the 32-byte roots of the data model). -/
theorem queueCalStateData_segment_spec (H : Bytes → Bytes)
    (hashFor : String → Bytes → Bytes) (sigOf : String → String)
    (signingPubKeyHashHex stackId baseUri : String) (now : Nat) (prevBlock : CalBlock)
    (roots : List AggRootMsg) (td : CalTreeData) (x : Nat) (block : CalBlock)
    (msgs : List CalStateMsg)
    (hH : ∀ bs, H bs ≠ [] ∧ ∀ b ∈ H bs, b < 256)
    (hhf : hashFor "sha-256" = H)
    (hroots : ∀ r ∈ roots, hexDecode r.agg_root ≠ [])
    (htd : generateCalendarTree H roots = some td)
    (hprev : isHex prevBlock.hash = true)
    (hx : x < roots.length)
    (hblock : block = createCalendarBlock H sigOf signingPubKeyHashHex prevBlock now
      stackId (hexEncode td.cal_root))
    (hmsgs : msgs = queueCalStateData td block baseUri) :
    (msgs.getD x default).ops =
      (td.proofData.getD x default).proof ++
        [COp.l (blockDataString block), COp.r block.prevHash, COp.op "sha-256"] ∧
    replayOps hashFor ((msgs.getD x default).ops)
      (hexDecode ((roots.getD x default).agg_root)) = hexDecode block.hash := by
  have hne : roots ≠ [] := by
    intro hr
    rw [hr] at hx
    simp at hx
  have hje : roots.isEmpty = false := by
    cases roots with
    | nil => exact absurd rfl hne
    | cons r rest => rfl
  rw [generateCalendarTree, hje] at htd
  simp only [Bool.false_eq_true, if_false, Option.some.injEq] at htd
  subst htd
  simp only [CalTreeData.proofData, CalTreeData.cal_root] at hblock hmsgs ⊢
  -- resolve the x-th proof-data item and the x-th published message
  have hrange : (List.range roots.length).getD x 0 = x := by
    rw [List.getD_eq_getElem _ _ (by simpa using hx)]
    simp
  have hpd : (((List.range roots.length).map fun y =>
      ({ agg_id := (roots.getD y default).agg_id,
         agg_msgId := (roots.getD y default).msgId,
         proof := formatAsChainpointV3Ops
           (toHexSteps (getProof H (roots.map fun rootObj => hexDecode rootObj.agg_root) y))
           "sha-256" } : CalProofItem)).getD x default) =
      { agg_id := (roots.getD x default).agg_id,
        agg_msgId := (roots.getD x default).msgId,
        proof := formatAsChainpointV3Ops
          (toHexSteps (getProof H (roots.map fun rootObj => hexDecode rootObj.agg_root) x))
          "sha-256" } := by
    rw [getD_map _ _ x default 0 (by simpa using hx), hrange]
  have hmsg : msgs.getD x default =
      { agg_id := (roots.getD x default).agg_id,
        cal_id := block.id,
        ops := formatAsChainpointV3Ops
            (toHexSteps (getProof H (roots.map fun rootObj => hexDecode rootObj.agg_root) x))
            "sha-256" ++
          [COp.l (blockDataString block), COp.r block.prevHash, COp.op "sha-256"],
        anchor_id := block.id,
        uris := [baseUri ++ "/calendar/" ++ toString block.id ++ "/hash"] } := by
    rw [hmsgs, queueCalStateData]
    rw [getD_map _ _ x default default (by simpa using hx), hpd]
  constructor
  · rw [hmsg, hpd]
  · rw [hmsg]
    have hleavesgood : ∀ a ∈ (roots.map fun rootObj => hexDecode rootObj.agg_root),
        a ≠ [] ∧ ∀ b ∈ a, b < 256 := by
      intro a ha
      obtain ⟨r, hr, rfl⟩ := List.mem_map.mp ha
      exact ⟨hroots r hr, hexDecode_lt r.agg_root⟩
    have hxlen : x < (roots.map fun rootObj => hexDecode rootObj.agg_root).length := by
      simpa using hx
    have hstart : hexDecode ((roots.getD x default).agg_root) =
        (roots.map fun rootObj => hexDecode rootObj.agg_root).getD x [] :=
      (getD_map (fun rootObj => hexDecode rootObj.agg_root) roots x [] default hx).symm
    rw [hstart, replayOps_append,
      replayOps_format hashFor H hhf _ _
        (getProof_good H hH _ x hxlen hleavesgood),
      replayB_getProof H _ x hxlen]
    -- replay the three extension ops
    have hbph : block.prevHash = prevBlock.hash := by rw [hblock]; rfl
    have hds : opValueBytes (blockDataString block) = utf8Bytes (blockDataString block) := by
      simp [opValueBytes, blockDataString_not_isHex]
    have hph : opValueBytes block.prevHash = hexDecode block.prevHash := by
      rw [hbph]
      simp [opValueBytes, hprev]
    show hashFor "sha-256"
        ((opValueBytes (blockDataString block) ++
            merkleRoot H (roots.map fun rootObj => hexDecode rootObj.agg_root)) ++
          opValueBytes block.prevHash) = hexDecode block.hash
    rw [hds, hph, hhf, hbph]
    have hrootgood := merkleRoot_good H hH
      (roots.map fun rootObj => hexDecode rootObj.agg_root)
      (by simpa [List.map_eq_nil_iff] using hne) hleavesgood
    have hbh : block.hash = hexEncode (H (utf8Bytes (blockDataString block) ++
        dataValBytes (hexEncode
          (merkleRoot H (roots.map fun rootObj => hexDecode rootObj.agg_root))) ++
        hexDecode prevBlock.hash)) := by
      rw [hblock]
      rfl
    rw [hbh, hexDecode_hexEncode _ (fun b hb => (hH _).2 b hb)]
    have hdv : dataValBytes (hexEncode
        (merkleRoot H (roots.map fun rootObj => hexDecode rootObj.agg_root))) =
        merkleRoot H (roots.map fun rootObj => hexDecode rootObj.agg_root) := by
      simp [dataValBytes, isHex_hexEncode _ hrootgood.1,
        hexDecode_hexEncode _ hrootgood.2]
    rw [hdv, List.append_assoc]

/-- C2 witness at a concrete one-root tick. -/
theorem queueCalStateData_segment_spec_witness :
    generateCalendarTree (fun _ => [7]) [⟨"agg1", "aa", 1⟩] =
      some ⟨[170], [⟨"agg1", 1, []⟩]⟩ ∧
    isHex (⟨0, 0, 1, "s", "gen", "0", "x", "p", "ab", ""⟩ : CalBlock).hash = true ∧
    (0 : Nat) < ([⟨"agg1", "aa", 1⟩] : List AggRootMsg).length ∧
    (((queueCalStateData ⟨[170], [⟨"agg1", 1, []⟩]⟩
          (createCalendarBlock (fun _ => [7]) (fun _ => "") "ff"
            ⟨0, 0, 1, "s", "gen", "0", "x", "p", "ab", ""⟩ 5 "st"
            (hexEncode ((⟨[170], [⟨"agg1", 1, []⟩]⟩ : CalTreeData).cal_root)))
          "http://u").getD 0 default).ops =
        ((⟨[170], [⟨"agg1", 1, []⟩]⟩ : CalTreeData).proofData.getD 0 default).proof ++
          [COp.l (blockDataString (createCalendarBlock (fun _ => [7]) (fun _ => "") "ff"
              ⟨0, 0, 1, "s", "gen", "0", "x", "p", "ab", ""⟩ 5 "st"
              (hexEncode ((⟨[170], [⟨"agg1", 1, []⟩]⟩ : CalTreeData).cal_root)))),
            COp.r (createCalendarBlock (fun _ => [7]) (fun _ => "") "ff"
              ⟨0, 0, 1, "s", "gen", "0", "x", "p", "ab", ""⟩ 5 "st"
              (hexEncode ((⟨[170], [⟨"agg1", 1, []⟩]⟩ : CalTreeData).cal_root))).prevHash,
            COp.op "sha-256"] ∧
      replayOps (fun _ => fun _ => [7])
          (((queueCalStateData ⟨[170], [⟨"agg1", 1, []⟩]⟩
            (createCalendarBlock (fun _ => [7]) (fun _ => "") "ff"
              ⟨0, 0, 1, "s", "gen", "0", "x", "p", "ab", ""⟩ 5 "st"
              (hexEncode ((⟨[170], [⟨"agg1", 1, []⟩]⟩ : CalTreeData).cal_root)))
            "http://u").getD 0 default).ops)
          (hexDecode ((([⟨"agg1", "aa", 1⟩] : List AggRootMsg).getD 0 default).agg_root)) =
        hexDecode (createCalendarBlock (fun _ => [7]) (fun _ => "") "ff"
          ⟨0, 0, 1, "s", "gen", "0", "x", "p", "ab", ""⟩ 5 "st"
          (hexEncode ((⟨[170], [⟨"agg1", 1, []⟩]⟩ : CalTreeData).cal_root))).hash) :=
  ⟨by decide, by decide, by decide,
    queueCalStateData_segment_spec (fun _ => [7]) (fun _ => fun _ => [7]) (fun _ => "")
      "ff" "st" "http://u" 5 ⟨0, 0, 1, "s", "gen", "0", "x", "p", "ab", ""⟩
      [⟨"agg1", "aa", 1⟩] ⟨[170], [⟨"agg1", 1, []⟩]⟩ 0 _ _
      (fun bs => ⟨by simp, by intro b hb; simp at hb; omega⟩)
      rfl
      (by intro r hr; simp at hr; rw [hr]; decide)
      (by decide)
      (by decide)
      (by decide)
      rfl
      rfl⟩

end Chainpoint
